import Mathlib

/-!
Verification development for the clinic data-access layer
(`src/services/archimed.ts` and the two scraper scripts).

The TypeScript functions are shallowly embedded as executable Lean
definitions.  JavaScript strings are modelled as Lean `String`s
(code points; all strings occurring in this code base are in the BMP,
where JS UTF-16 indices coincide with code-point indices).
`String.prototype.toLowerCase` is modelled on the Latin and Cyrillic
letters, the only scripts this code base manipulates.
`null`/`undefined`-able string fields are modelled as `Option String`.
-/

/-! ## JS string helpers -/

/-- The characters matched by the regex class `\s` (ASCII part), used by
`trim`, `split(/\s+/)` and the `\s+` patterns in the source. -/
def jsIsSpace (c : Char) : Bool :=
  c = ' ' || c = '\t' || c = '\n' || c = '\r' || c = '\x0b' || c = '\x0c'

/-- `String.prototype.toLowerCase`, restricted to Latin `A`-`Z` and
Cyrillic `А`-`Я`, `Ё` — the scripts appearing in this repository. -/
def lowerCharJs (c : Char) : Char :=
  if 'A' ≤ c ∧ c ≤ 'Z' then Char.ofNat (c.toNat + 32)
  else if 0x410 ≤ c.toNat ∧ c.toNat ≤ 0x42F then Char.ofNat (c.toNat + 0x20)
  else if c.toNat = 0x401 then Char.ofNat 0x451
  else c

def toLowerJs (s : String) : String := String.mk (s.toList.map lowerCharJs)

/-- `.replace(/ё/g, 'е')` (the sources apply it after `toLowerCase`). -/
def yoFold (s : String) : String :=
  String.mk (s.toList.map (fun c => if c = 'ё' then 'е' else c))

/-- `String.prototype.trim`. -/
def trimJs (s : String) : String :=
  String.mk (((s.toList.dropWhile jsIsSpace).reverse.dropWhile jsIsSpace).reverse)

/-- `String.prototype.split` on a regex `/X+/` where `X` is a character
class decided by `p`: maximal runs of `p`-characters separate the pieces;
a leading (trailing) run yields a leading (trailing) empty piece, exactly
as in JavaScript. -/
def splitRunsBy (p : Char → Bool) : List Char → List String
  | [] => [""]
  | c :: rest =>
    let r := splitRunsBy p rest
    if p c then
      match rest with
      | [] => "" :: r
      | c' :: _ => if p c' then r else "" :: r
    else
      match r with
      | s :: tail => String.mk (c :: s.toList) :: tail
      | [] => [String.mk [c]]

/-- `s.split(/\s+/)`. -/
def jsSplitWs (s : String) : List String := splitRunsBy jsIsSpace s.toList

/-- `s.split(/\n+/)`. -/
def jsSplitNewlines (s : String) : List String := splitRunsBy (· = '\n') s.toList

/-- `s.replace(/X+/g, ' ')` for a character class decided by `p`. -/
def collapseRunsToSpace (p : Char → Bool) (s : String) : String :=
  String.intercalate " " (splitRunsBy p s.toList)

/-- Substring test (`/needle/.test(hay)` for a literal `needle`):
the needle occurs at some position of the haystack. -/
def containsSub (hay needle : String) : Bool :=
  (List.range (hay.toList.length + 1)).any
    (fun i => needle.toList.isPrefixOf (hay.toList.drop i))

/-- Tiny regex fragments sufficient for the patterns of `mergeOne`:
literals, `\s+`, and `\d{n}`. -/
inductive RePat
  | lit (s : String)
  | ws
  | digits (n : Nat)

/-- Match a pattern sequence at the start of `cs`.  The `\s+` token is
matched greedily, which is equivalent to the regex semantics here because
in every pattern of the source the token after `\s+` cannot match a
space. -/
def rePatsMatchAt : List RePat → List Char → Bool
  | [], _ => true
  | .lit l :: ps, cs =>
    l.toList.isPrefixOf cs && rePatsMatchAt ps (cs.drop l.toList.length)
  | .ws :: ps, cs =>
    match cs with
    | c :: rest => jsIsSpace c && rePatsMatchAt ps (rest.dropWhile jsIsSpace)
    | [] => false
  | .digits n :: ps, cs =>
    decide ((cs.take n).length = n) && (cs.take n).all Char.isDigit
      && rePatsMatchAt ps (cs.drop n)

/-- `/pats/.test(s)` — search at every position. -/
def reTest (pats : List RePat) (s : String) : Bool :=
  let cs := s.toList
  (List.range (cs.length + 1)).any (fun i => rePatsMatchAt pats (cs.drop i))

/-! ## Data model (`ArchimedDoctor`, `ApiService` — the fields read by the
modelled functions; fields the modelled code never reads are omitted) -/

structure DoctorType where
  id : Int
  name : String
deriving DecidableEq, Repr

structure ArchimedDoctor where
  id : Int
  name : String
  name1 : String
  name2 : String
  type : String
  photo : Option String
  scientific_degree : Option String
  category : String
  info : String
  types : List DoctorType
deriving DecidableEq, Repr

structure ApiService where
  id : Int
  name : String
  group_name : String
deriving DecidableEq, Repr

/-! ## Name normalization and blacklist (archimed.ts lines 38-52) -/

/-- `normalizeRu` (archimed.ts line 39): lower-case, fold `ё`, collapse
runs of non-`[a-zа-я0-9]` to a single space, trim. -/
def isRuAlnum (c : Char) : Bool :=
  if 'a' ≤ c ∧ c ≤ 'z' then true
  else if 0x430 ≤ c.toNat ∧ c.toNat ≤ 0x44F then true
  else c.isDigit

def normalizeRu (s : String) : String :=
  trimJs (collapseRunsToSpace (fun c => !isRuAlnum c) (yoFold (toLowerJs s)))

/-- `makeFullName` (archimed.ts line 46). -/
def makeFullName (d : ArchimedDoctor) : String :=
  normalizeRu (String.intercalate " " ([d.name, d.name1, d.name2].filter (· ≠ "")))

/-- `NAME_BLACKLIST` (archimed.ts lines 50-52). -/
def nameBlacklist : List String := ["хорбаа анжела тарасовна"]

/-- `isBlacklisted` (archimed.ts lines 584-591). -/
def isBlacklisted (d : ArchimedDoctor) : Bool := nameBlacklist.contains (makeFullName d)

/-- `applyRemovals` (archimed.ts lines 593-599). -/
def applyRemovals (l : List ArchimedDoctor) : List ArchimedDoctor :=
  l.filter (fun d => !isBlacklisted d)

/-! ## The merge engine (`mergeDoctors`, archimed.ts lines 512-582) -/

/-- The local `normalize` of `mergeDoctors` (line 513):
`(s || '').toLowerCase().replace(/ё/g, 'е').trim()`. -/
def normalizeJs (s : String) : String := trimJs (yoFold (toLowerJs s))

/-- `makeNameKey` (line 514): the merge key of a record. -/
def makeNameKey (d : ArchimedDoctor) : String :=
  normalizeJs d.name ++ "|" ++ normalizeJs d.name1 ++ "|" ++ normalizeJs d.name2

/-- JS falsiness of a nullable string (`!v`). -/
def jsFalsyStrOpt : Option String → Bool
  | none => true
  | some s => s = ""

/-- `isEmpty` of `mergeOne` (line 520) on a nullable string. -/
def isEmptyJs : Option String → Bool
  | none => true
  | some s => trimJs s = ""

/-- Photo merge (line 525): `if ((!base.photo || base.photo === '') && add.photo)`. -/
def mergePhoto (base add : ArchimedDoctor) : Option String :=
  if jsFalsyStrOpt base.photo && !jsFalsyStrOpt add.photo then add.photo else base.photo

/-- Scientific-degree merge (lines 528-532). -/
def mergeDegree (base add : ArchimedDoctor) : Option String :=
  let baseDeg := normalizeJs (base.scientific_degree.getD "")
  let addDeg := normalizeJs (add.scientific_degree.getD "")
  if (isEmptyJs base.scientific_degree || baseDeg = "без степени")
      && (!(addDeg = "") && !(addDeg = "без степени")) then
    add.scientific_degree
  else base.scientific_degree

/-- `looksLikeCategory` (line 535): `/(категор)/i.test(s)`. -/
def looksLikeCategory (s : String) : Bool := containsSub (toLowerJs s) "категор"

/-- Category merge (lines 536-538). -/
def mergeCategory (base add : ArchimedDoctor) : String :=
  if (trimJs base.category = "" || !looksLikeCategory base.category)
      && looksLikeCategory add.category then
    add.category
  else base.category

def expPats1 : List RePat := [.lit "стаж", .ws, .lit "с", .ws, .digits 4]
def expPats2 : List RePat := [.lit "врачебный", .ws, .lit "стаж", .ws, .lit "с", .ws, .digits 4]

/-- `/стаж\s+с\s+\d{4}/i.test(s) || /врачебный\s+стаж\s+с\s+\d{4}/i.test(s)`
(lines 543-544); the `i` flag is modelled by lowering the subject. -/
def hasExperienceInfo (s : String) : Bool :=
  reTest expPats1 (toLowerJs s) || reTest expPats2 (toLowerJs s)

/-- `/Смежные специальности/i.test(s)` (lines 549-550). -/
def extrasLineTest (s : String) : Bool :=
  containsSub (toLowerJs s) "смежные специальности"

/-- Info merge (lines 541-551). -/
def mergeInfo (base add : ArchimedDoctor) : String :=
  let infoText := base.info
  let addInfo := add.info
  let hasExperience := hasExperienceInfo infoText
  let addHasExperience := hasExperienceInfo addInfo
  let parts1 : List String := if infoText ≠ "" then [infoText] else []
  let parts2 :=
    if !hasExperience && addHasExperience then
      parts1 ++ [(jsSplitNewlines addInfo).headD ""]
    else parts1
  let addExtrasLine := (jsSplitNewlines addInfo).find? (fun l => extrasLineTest l)
  let parts3 :=
    match addExtrasLine with
    | some l => if l ≠ "" && !extrasLineTest infoText then parts2 ++ [l] else parts2
    | none => parts2
  String.intercalate "\n" (parts3.filter (· ≠ ""))

/-- A JS `Set` built from a list: first occurrence kept, insertion order. -/
def dedupKeepOrder (l : List String) : List String :=
  l.foldl (fun acc n => if acc.contains n then acc else acc ++ [n]) []

/-- Type-name merge (lines 554-557): base names, then the new non-empty
names from `add` in order. -/
def mergeTypeNames (base add : ArchimedDoctor) : List String :=
  let baseTypeNames :=
    dedupKeepOrder (normalizeJs base.type :: base.types.map (fun t => normalizeJs t.name))
  let addTypeNames :=
    dedupKeepOrder (normalizeJs add.type :: add.types.map (fun t => normalizeJs t.name))
  addTypeNames.foldl
    (fun acc n => if n ≠ "" && !acc.contains n then acc ++ [n] else acc) baseTypeNames

/-- `mergeOne` (lines 519-569): merge one `extra` record into a primary
record with the same merge key.  All name/id fields come from `base`
(`{ ...base }`). -/
def mergeOne (base add : ArchimedDoctor) : ArchimedDoctor :=
  let materialized := (mergeTypeNames base add).filter (· ≠ "")
  { base with
    photo := mergePhoto base add
    scientific_degree := mergeDegree base add
    category := mergeCategory base add
    info := mergeInfo base add
    types :=
      if materialized.length > 0 then
        materialized.mapIdx (fun i n => ⟨(i : Int), n⟩)
      else base.types
    type := if materialized.length > 0 then materialized.headD base.type else base.type }

/-- A JS `Map` as an association list: `set` overwrites in place if the
key is present (keeping its position) and appends otherwise. -/
def jsMapSet {α : Type} : List (String × α) → String → α → List (String × α)
  | [], k, v => [(k, v)]
  | (k', v') :: rest, k, v =>
    if k' = k then (k, v) :: rest else (k', v') :: jsMapSet rest k v

/-- `Map.get`. -/
def jsMapGet {α : Type} (m : List (String × α)) (k : String) : Option α :=
  (m.find? (fun p => p.1 == k)).map (·.2)

/-- `mergeDoctors` (lines 512-582): index `primary` by merge key, then for
each `extra` record either merge it into the record with the same key or
insert it; return the map's values (insertion order). -/
def mergeDoctors (primary extra : List ArchimedDoctor) : List ArchimedDoctor :=
  let m1 := primary.foldl (fun m d => jsMapSet m (makeNameKey d) d) []
  let m2 := extra.foldl (fun m d =>
    match jsMapGet m (makeNameKey d) with
    | some existing => jsMapSet m (makeNameKey d) (mergeOne existing d)
    | none => jsMapSet m (makeNameKey d) d) m1
  m2.map (·.2)

/-! ## Service/doctor token matching (archimed.ts lines 602-638) -/

/-- The local `tokenize` of `getDoctorsWithServices` / `getServicesWithDoctors`
(lines 607-608, 626-627): lower-case, fold `ё`, split on whitespace,
drop empty pieces. -/
def tokenizeJs (s : String) : List String :=
  (splitRunsBy jsIsSpace (yoFold (toLowerJs s)).toList).filter (· ≠ "")

/-- `docTokens` (lines 610, 631): the token set of a doctor's specialty
names, as an insertion-ordered JS `Set`. -/
def doctorTokens (d : ArchimedDoctor) : List String :=
  dedupKeepOrder (tokenizeJs d.type ++ (d.types.map (fun t => tokenizeJs t.name)).flatten)

/-- `svcTokens` (lines 612, 629). -/
def serviceTokens (s : ApiService) : List String :=
  dedupKeepOrder (tokenizeJs s.group_name ++ tokenizeJs s.name)

/-- `getDoctorsWithServices` (lines 602-619), as a function of the two
fetched lists: each doctor paired with the services sharing a token. -/
def getDoctorsWithServices (doctors : List ArchimedDoctor) (services : List ApiService) :
    List (ArchimedDoctor × List ApiService) :=
  doctors.map (fun d =>
    (d, services.filter (fun svc =>
      (doctorTokens d).any (fun t => (serviceTokens svc).contains t))))

/-- `getServicesWithDoctors` (lines 621-638). -/
def getServicesWithDoctors (doctors : List ArchimedDoctor) (services : List ApiService) :
    List (ApiService × List ArchimedDoctor) :=
  services.map (fun svc =>
    (svc, doctors.filter (fun d =>
      (doctorTokens d).any (fun t => (serviceTokens svc).contains t))))

/-! ## Paginated API fetch (`fetchAllDoctorsFromAPI`, archimed.ts lines 398-436) -/

/-- Shape of one `/doctors?page=…` JSON response.  `none` fields model
absent/`undefined`/non-array values (`??` fallbacks, `Array.isArray`
checks in the source). -/
structure ApiPage where
  data : Option (List ArchimedDoctor)
  total : Option Int
  limit : Option Int
deriving DecidableEq, Repr

/-- `Math.ceil(a / b)` for integers, `b > 0`. -/
def ceilDivInt (a b : Int) : Int := Int.ediv (a + b - 1) b

/-- The records a page response contributes (`data` when it is an array). -/
def pageDataOf (r : Except String ApiPage) : List ArchimedDoctor :=
  match r with
  | .ok pg => pg.data.getD []
  | .error _ => []

/-- The `for (page = 2; …)` loop (lines 419-430): walk the remaining page
numbers; an error, a non-array/empty `data`, or a short page stops the
loop (on a short page its records are still kept).  The model also
records which pages were requested. -/
def fetchLoop (env : Nat → Except String ApiPage) (limit : Int) :
    List Nat → List Nat → List ArchimedDoctor → List Nat × List ArchimedDoctor
  | [], reqs, acc => (reqs, acc)
  | p :: rest, reqs, acc =>
    match env p with
    | .error _ => (reqs ++ [p], acc)
    | .ok pg =>
      match pg.data with
      | some ds =>
        if 0 < ds.length then
          if (ds.length : Int) < limit then (reqs ++ [p], acc ++ ds)
          else fetchLoop env limit rest (reqs ++ [p]) (acc ++ ds)
        else (reqs ++ [p], acc)
      | none => (reqs ++ [p], acc)

/-- `fetchAllDoctorsFromAPI` (lines 398-436), over an environment giving
each page request's outcome.  Returns the list of requested page numbers
(instrumentation for the pagination claims) together with the records the
promise resolves with; the source function returns only the latter and
never rejects (its whole body is inside `try`/`catch`). -/
def fetchAllDoctorsFromAPI (env : Nat → Except String ApiPage) :
    List Nat × List ArchimedDoctor :=
  match env 1 with
  | .error _ => ([1], [])
  | .ok first =>
    let all0 := first.data.getD []
    let total : Int := first.total.getD (match first.data with
      | some ds => (ds.length : Int)
      | none => 0)
    let limit : Int := first.limit.getD 200
    let totalPages : Int :=
      if 0 < limit then ceilDivInt (if total ≠ 0 then total else (all0.length : Int)) limit
      else 1
    let lastPage : Int := min totalPages 50
    fetchLoop env limit (List.range' 2 (lastPage - 1).toNat) [1] all0

/-- The `limit` the loop compares page sizes against
(`(first as any)?.limit ?? DEFAULT_API_PAGE_LIMIT`). -/
def firstLimit (env : Nat → Except String ApiPage) : Int :=
  match env 1 with
  | .ok first => first.limit.getD 200
  | .error _ => 200

/-! ## Local-storage cache (archimed.ts lines 129-151) -/

/-- A JSON value that is either an array of `α`, an object with an array
`data` field, or anything else (the shapes `getDoctors` distinguishes). -/
inductive RawJson (α : Type) : Type
  | arr (xs : List α)
  | wrapped (xs : List α)
  | other
deriving DecidableEq, Repr

/-- `Array.isArray(raw) ? raw : (Array.isArray(raw?.data) ? raw.data : [])`. -/
def extractArr {α : Type} : RawJson α → List α
  | .arr xs => xs
  | .wrapped xs => xs
  | .other => []

/-- The state of a storage slot: the key is missing, holds unparsable
text, or holds a parsed `{ data, timestamp }` payload whose fields may be
absent/null (`none`). -/
inductive StorageRaw (α : Type) : Type
  | missing
  | unparsable
  | slot (data : Option α) (timestamp : Option Int)
deriving DecidableEq, Repr

/-- `readFromStorage` (lines 129-141).  A payload whose `data` or
`timestamp` is absent — or whose `timestamp` is `0`, which is falsy — is
rejected; otherwise `parsed.data` is returned from both branches of the
freshness conditional, exactly as in the source
(`return isFresh ? parsed.data : parsed.data`).  The `data` values this
slot ever holds are arrays/objects, which are always truthy. -/
def readFromStorage {α : Type} (raw : StorageRaw α) (now ttlMs : Int) : Option α :=
  match raw with
  | .missing => none
  | .unparsable => none
  | .slot d t =>
    match d, t with
    | some dv, some ts =>
      if ts ≠ 0 then
        if now - ts < ttlMs then some dv else some dv
      else none
    | _, _ => none

/-- `DOCTORS_CACHE_TTL_MS` (line 32). -/
def doctorsCacheTtlMs : Int := 24 * 60 * 60 * 1000

/-! ## The `getDoctors` fallback chain (archimed.ts lines 60-90, 154-274,
386-396, 439-510) -/

/-- One entry of the ProDoctorov snapshot (lines 443-451). -/
structure ProdItem where
  fullName : String
  specialty : String
  photo : Option String
  category : Option String
  scientific_degree : Option String
  experienceStartYear : Option Int
  extraSpecialties : Option (List String)
deriving DecidableEq, Repr

/-- `mapProdoctorovToArchimed` (lines 461-510), restricted to the fields
of the model. -/
def mapProdoctorovToArchimed (item : ProdItem) (index : Nat) : ArchimedDoctor :=
  let parts := jsSplitWs item.fullName
  let lastName := parts.getD 0 ""
  let firstName := parts.getD 1 ""
  let middleName := parts.getD 2 ""
  let typeName := if item.specialty = "" then "Врач" else item.specialty
  let defaultCategory := match item.category with
    | some c => if c = "" then typeName else c
    | none => typeName
  let degree := match item.scientific_degree with
    | some s => if s = "" then "Без степени" else s
    | none => "Без степени"
  let extraTypes := item.extraSpecialties.getD []
  let experienceInfo := match item.experienceStartYear with
    | some y => if y ≠ 0 then "Врачебный стаж с " ++ toString y ++ " г." else ""
    | none => ""
  let extraInfo :=
    if extraTypes.length > 0 then
      "Смежные специальности: " ++ String.intercalate ", " extraTypes
    else ""
  { id := 100000 + (index : Int)
    name := lastName
    name1 := firstName
    name2 := middleName
    type := typeName
    photo := match item.photo with
      | some p => if p = "" then none else some p
      | none => none
    scientific_degree := some degree
    category := defaultCategory
    info := String.intercalate "\n" ([experienceInfo, extraInfo].filter (· ≠ ""))
    types := ⟨0, typeName⟩ :: extraTypes.mapIdx (fun i n => ⟨(i : Int) + 1, n⟩) }

/-- `loadProdoctorovSnapshot` (lines 439-459): an import failure or an
unusable/empty shape yields `[]`; otherwise each entry is mapped. -/
def loadProdoctorovSnapshot (prodRaw : Except String (RawJson ProdItem)) :
    List ArchimedDoctor :=
  match prodRaw with
  | .error _ => []
  | .ok raw =>
    let list := extractArr raw
    if list.length = 0 then []
    else list.mapIdx (fun i item => mapProdoctorovToArchimed item i)

/-- Outcome of the public-gateway `fetch` when it does not throw:
HTTP `ok` flag and parsed JSON body. -/
structure SiteResp where
  ok : Bool
  body : RawJson ArchimedDoctor
deriving DecidableEq, Repr

/-- The external world `getDoctors` interacts with: the public-gateway
request (`.error` = the fetch or `.json()` threw), the per-page Archimed
API requests, the two bundled JSON imports, and the mock list. -/
structure FetchEnv where
  publicResp : Except String SiteResp
  apiPages : Nat → Except String ApiPage
  doctorsJson : Except String (RawJson ArchimedDoctor)
  prodRaw : Except String (RawJson ProdItem)
  mocks : List ArchimedDoctor

/-- The service's doctor-side state: the in-memory `doctorsCache` and the
`archimed_doctors_v1` storage slot. -/
structure SvcState where
  cache : List ArchimedDoctor
  storage : StorageRaw (RawJson ArchimedDoctor)
deriving DecidableEq, Repr

/-- `writeToStorage(DOCTORS_CACHE_KEY, ds)` (lines 143-151): the slot now
parses to `{ data: ds, timestamp: now }`. -/
def storedSlot (ds : List ArchimedDoctor) (now : Int) : StorageRaw (RawJson ArchimedDoctor) :=
  .slot (some (.arr ds)) (some now)

deriving instance DecidableEq for Except

/-- Result of one `getDoctors` call: the settled promise, the new state,
and whether a background `refreshDoctors` was fired. -/
structure GDResult where
  ret : Except String (List ArchimedDoctor)
  st : SvcState
  refreshed : Bool
deriving DecidableEq, Repr

/-- `if (this.doctorsCache.length < 10)` enrichment (lines 218-224,
240-246). -/
def enrichIfFew (base : List ArchimedDoctor) (env : FetchEnv) : List ArchimedDoctor :=
  if base.length < 10 then
    let pro := loadProdoctorovSnapshot env.prodRaw
    if pro.length > 0 then mergeDoctors base pro else base
  else base

/-- Step 2 of the chain (lines 212-227): direct Archimed API, enriched
from the ProDoctorov snapshot when short, blacklist-filtered, stored. -/
def apiDirectPath (env : FetchEnv) (now : Int) : GDResult :=
  let all := (fetchAllDoctorsFromAPI env.apiPages).2
  let c := applyRemovals (enrichIfFew all env)
  ⟨.ok c, ⟨c, storedSlot c now⟩, false⟩

/-- Steps 3 and 4 of the chain — the `catch` block (lines 228-265):
bundled `doctors.json`, then the mock list (always enriched from the
ProDoctorov snapshot when that is non-empty). -/
def catchPath (env : FetchEnv) (now : Int) : GDResult :=
  match env.doctorsJson with
  | .ok raw =>
    let localDoctors := extractArr raw
    let c := applyRemovals (enrichIfFew localDoctors env)
    ⟨.ok c, ⟨c, storedSlot c now⟩, false⟩
  | .error _ =>
    let base := env.mocks
    let pro := loadProdoctorovSnapshot env.prodRaw
    let merged := if pro.length > 0 then mergeDoctors base pro else base
    let c := applyRemovals merged
    ⟨.ok c, ⟨c, storedSlot c now⟩, false⟩

/-- The `try` block of the fetch path (lines 181-265): public gateway
first (preferring the larger of the gateway and direct-API datasets),
then the direct API, with the `catch` block on a thrown error. -/
def getDoctorsFetch (env : FetchEnv) (now : Int) : GDResult :=
  match env.publicResp with
  | .error _ => catchPath env now
  | .ok site =>
    if site.ok then
      let publicData := extractArr site.body
      let apiAll := (fetchAllDoctorsFromAPI env.apiPages).2
      let bestData := if publicData.length < apiAll.length then apiAll else publicData
      if bestData.length > 0 then
        let c := applyRemovals bestData
        ⟨.ok c, ⟨c, storedSlot c now⟩, false⟩
      else apiDirectPath env now
    else apiDirectPath env now

/-- `getDoctors` (lines 154-266): serve the in-memory cache (with a
background refresh), else the storage slot (array shape, then `{ data }`
shape), else run the fetch fallback chain. -/
def getDoctors (st : SvcState) (env : FetchEnv) (now : Int) : GDResult :=
  if 0 < st.cache.length then ⟨.ok st.cache, st, true⟩
  else
    match readFromStorage st.storage now doctorsCacheTtlMs with
    | some (.arr ds) =>
      if 0 < ds.length then
        let c := applyRemovals ds
        ⟨.ok c, ⟨c, st.storage⟩, true⟩
      else getDoctorsFetch env now
    | some (.wrapped ds) =>
      let c := applyRemovals ds
      ⟨.ok c, ⟨c, storedSlot c now⟩, true⟩
    | some .other => getDoctorsFetch env now
    | none => getDoctorsFetch env now

/-- `refreshDoctors` (lines 386-396): replace cache and storage only when
the API yielded a non-empty list; otherwise keep the stale state. -/
def refreshDoctors (st : SvcState) (env : FetchEnv) (now : Int) : SvcState :=
  let all := (fetchAllDoctorsFromAPI env.apiPages).2
  if 0 < all.length then
    let c := applyRemovals all
    ⟨c, storedSlot c now⟩
  else st

/-- The constructor's storage warm-up (lines 70-81). -/
def initState (raw : StorageRaw (RawJson ArchimedDoctor)) (now : Int) : SvcState :=
  match readFromStorage raw now doctorsCacheTtlMs with
  | some (.arr ds) => ⟨applyRemovals ds, raw⟩
  | some (.wrapped ds) =>
    let c := applyRemovals ds
    ⟨c, storedSlot c now⟩
  | _ => ⟨[], raw⟩

/-- `getDoctor` (lines 268-274) as a function of the `/doctors/{id}`
request's outcome: a blacklisted record is turned into a 404 rejection. -/
def getDoctor (apiResult : Except String ArchimedDoctor) : Except String ArchimedDoctor :=
  match apiResult with
  | .error e => .error e
  | .ok doc =>
    if isBlacklisted doc then .error "Archimed API error: 404 - Not found"
    else .ok doc

/-! ## The filename-parsing scraper (src/unnamed/part - 001,
`update_photos_from_dir` script) -/

/-- One entry of `prodoctorov.json` as the scraper manipulates it. -/
structure ScrapedEntry where
  fullName : String
  specialty : String
  photo : Option String
deriving DecidableEq, Repr

/-- The scraper's `normalizeName`: lower-case, fold `ё`, collapse
whitespace runs to one space, trim. -/
def normalizeNameScraper (s : String) : String :=
  trimJs (collapseRunsToSpace jsIsSpace (yoFold (toLowerJs s)))

/-- Split a char list at every occurrence of `c0` (JS
`String.prototype.split` with a single-character separator). -/
def splitOnChar (c0 : Char) : List Char → List (List Char)
  | [] => [[]]
  | c :: rest =>
    let r := splitOnChar c0 rest
    if c = c0 then [] :: r
    else
      match r with
      | s :: tail => (c :: s) :: tail
      | [] => [[c]]

/-- `basename.replace(/\.[^.]+$/i, "")`: strip a final `.ext` whose
extension part is non-empty and dot-free. -/
def stripExt (s : String) : String :=
  let parts := splitOnChar '.' s.toList
  if 2 ≤ parts.length ∧ parts.getLastD [] ≠ [] then
    String.mk (List.intercalate ['.'] parts.dropLast)
  else s

/-- `hay.lastIndexOf(needle)` (as `none` when absent). -/
def lastOccurrence (hay needle : List Char) : Option Nat :=
  ((List.range (hay.length + 1)).filter (fun i => needle.isPrefixOf (hay.drop i))).getLast?

/-- `.replace(/[\-\s]+$/, "")` on a char list. -/
def trimEndDashWs (cs : List Char) : List Char :=
  (cs.reverse.dropWhile (fun c => c = '-' || jsIsSpace c)).reverse

/-- `.replace(/^[-\s]+/, "")` on a char list. -/
def trimStartDashWs (cs : List Char) : List Char :=
  cs.dropWhile (fun c => c = '-' || jsIsSpace c)

/-- `splitNameAndSpecialty` of the scraper: split an image file name into
the doctor's full name and the specialty at the right-most hyphen
delimiter. -/
def splitNameAndSpecialty (basename : String) : String × String :=
  let nameOnly := stripExt basename
  let cs := nameOnly.toList
  let candidates :=
    [lastOccurrence cs " - ".toList, lastOccurrence cs "- ".toList,
     lastOccurrence cs " -".toList].filterMap id
  match candidates with
  | [] => (trimJs nameOnly, "")
  | c0 :: crest =>
    let splitIdx := crest.foldl Nat.max c0
    let off := if cs.getD (splitIdx + 1) '\x00' = ' ' then 2 else 1
    (String.mk (trimEndDashWs (trimJs (String.mk (cs.take splitIdx))).toList),
     String.mk (trimStartDashWs (trimJs (String.mk (cs.drop (splitIdx + off)))).toList))

/-- `!item.photo || /no-avatar\.svg$/i.test(item.photo)`. -/
def hasNoPhoto (e : ScrapedEntry) : Bool :=
  match e.photo with
  | none => true
  | some p => p = "" || "no-avatar.svg".toList.isSuffixOf (toLowerJs p).toList

/-- State of the scraper's main loop: the `results` list and the `byName`
map.  In the script `byName` maps a normalized name to the (aliased)
entry object inside `results`; the model represents the alias as the
entry's index. -/
structure ScrapeState where
  results : List ScrapedEntry
  byName : List (String × Nat)
deriving DecidableEq, Repr

/-- `new Map(existing.map(i => [normalizeName(i.fullName), i]))` plus
`results = [...existing]` (a later duplicate key overwrites, i.e. the
alias points at the last entry with that key). -/
def scrapeInit (existing : List ScrapedEntry) : ScrapeState :=
  ⟨existing,
   existing.enum.foldl
     (fun m p => jsMapSet m (normalizeNameScraper p.2.fullName) p.1) []⟩

/-- In-place update of one list element. -/
def updateAt {α : Type} : List α → Nat → (α → α) → List α
  | [], _, _ => []
  | x :: xs, 0, f => f x :: xs
  | x :: xs, n + 1, f => x :: updateAt xs n f

/-- The `else` branch of the loop body: update the aliased entry's photo
only when it is absent, empty or the placeholder, and its specialty only
when missing. -/
def scrapeUpdateEntry (photoPath specialty : String) (item : ScrapedEntry) : ScrapedEntry :=
  let item1 := if hasNoPhoto item then { item with photo := some photoPath } else item
  if trimJs item1.specialty = "" ∧ specialty ≠ "" then { item1 with specialty := specialty }
  else item1

/-- One iteration of the scraper's `for (const filename of entries)` loop
(part - 001, lines 82-112). -/
def scrapeStep (st : ScrapeState) (filename : String) : ScrapeState :=
  let parsed := splitNameAndSpecialty filename
  if parsed.1 = "" then st
  else
    let key := normalizeNameScraper parsed.1
    let photoPath := "/img_doctors/" ++ filename
    match jsMapGet st.byName key with
    | none =>
      { results := st.results ++
          [⟨parsed.1, if parsed.2 = "" then "Врач" else parsed.2, some photoPath⟩]
        byName := jsMapSet st.byName key st.results.length }
    | some idx =>
      { st with results := updateAt st.results idx (scrapeUpdateEntry photoPath parsed.2) }

/-- The first loop of `mergeDoctors` (line 517): index the primary list. -/
def phase1 (m : List (String × ArchimedDoctor)) (l : List ArchimedDoctor) :
    List (String × ArchimedDoctor) :=
  l.foldl (fun m d => jsMapSet m (makeNameKey d) d) m

/-- The second loop of `mergeDoctors` (lines 571-579): fold the extra
records in. -/
def phase2 (m : List (String × ArchimedDoctor)) (l : List ArchimedDoctor) :
    List (String × ArchimedDoctor) :=
  l.foldl (fun m d =>
    match jsMapGet m (makeNameKey d) with
    | some existing => jsMapSet m (makeNameKey d) (mergeOne existing d)
    | none => jsMapSet m (makeNameKey d) d) m

/-- A page response that keeps the pagination loop going: `.ok`, an array
`data` with at least one record and at least `limit` records. -/
def pageFull (r : Except String ApiPage) (limit : Int) : Prop :=
  ∃ pg ds, r = .ok pg ∧ pg.data = some ds ∧ 0 < ds.length ∧ limit ≤ (ds.length : Int)

/-- The records contributed by pages `1..n`. -/
def accUpTo (env : Nat → Except String ApiPage) (n : Nat) : List ArchimedDoctor :=
  ((List.range' 1 n).map (fun q => pageDataOf (env q))).flatten

/-! ## Concrete fixtures for the witness and counterexample theorems -/

/-- Concrete records used by the witness theorems. -/
def docW : ArchimedDoctor := ⟨1, "a", "b", "c", "t", some "x", none, "", "", []⟩

def docW2 : ArchimedDoctor := ⟨2, "A", "b", "c", "u", some "y", none, "", "", []⟩

def docW3 : ArchimedDoctor := ⟨3, "z", "b", "c", "u", some "y", none, "", "", []⟩

/-- A fetch environment in which every request fails. -/
def envFailW : FetchEnv :=
  ⟨.error "network down", fun _ => .error "network down", .error "import failed",
   .error "import failed", [docW3]⟩

/-- A doctor/service pair with one shared specialty token. -/
def docT : ArchimedDoctor := ⟨7, "n", "", "", "card", none, none, "", "", []⟩

def svcT : ApiService := ⟨8, "card", "grp"⟩

/-- A fetch environment for the C3 witness: public gateway and API throw,
`doctors.json` loads as an empty array, no ProDoctorov snapshot. -/
def envC3 : FetchEnv :=
  ⟨.error "net", fun _ => .error "net", .ok (.arr []), .error "no snapshot", []⟩

/-- The blacklisted doctor record. -/
def docB : ArchimedDoctor := ⟨9, "Хорбаа", "Анжела", "Тарасовна", "", none, none, "", "", []⟩

/-- Page 1 empty but `total` announcing more records; page 2 empty. -/
def envC5 : Nat → Except String ApiPage := fun n =>
  if n = 1 then .ok ⟨some [], some 400, some 200⟩ else .ok ⟨some [], none, none⟩

/-- Page 1 full (limit 1), page 2 errors. -/
def envW5 : Nat → Except String ApiPage := fun n =>
  if n = 1 then .ok ⟨some [docW], some 5, some 1⟩ else .error "boom"

/-- An existing snapshot entry with a real photo. -/
def entW8 : ScrapedEntry := ⟨"Abc Def", "spec0", some "/img_doctors/x.jpg"⟩

def stW8 : ScrapeState := scrapeInit [entW8]

/-! ## Theorems -/

/-- C1: `mergeDoctors` matches two records exactly when their merge keys
are equal; the merge key is the normalized (lower-cased, `ё`-folded)
concatenation of the name parts `name`, `name1`, `name2` (separated by
`|`) and depends on nothing else in the record. -/
theorem claim_C1_merge_key (p a : ArchimedDoctor) :
    (mergeDoctors [p] [a] =
      if makeNameKey p = makeNameKey a then [mergeOne p a] else [p, a]) ∧
    makeNameKey p = normalizeJs p.name ++ "|" ++ normalizeJs p.name1 ++ "|" ++ normalizeJs p.name2 ∧
    (∀ d : ArchimedDoctor, makeNameKey d = makeNameKey ⟨0, d.name, d.name1, d.name2, "", none, none, "", "", []⟩) := by
  refine ⟨?_, rfl, fun d => rfl⟩
  by_cases h : makeNameKey p = makeNameKey a
  · simp [mergeDoctors, jsMapGet, jsMapSet, List.find?, h]
  · have hb : (makeNameKey p == makeNameKey a) = false := beq_eq_false_iff_ne.mpr h
    simp [mergeDoctors, jsMapGet, jsMapSet, List.find?, hb, h]

/-- JS falsiness of a nullable string, spelled out. -/
theorem jsFalsyStrOpt_iff (o : Option String) :
    jsFalsyStrOpt o = true ↔ (o = none ∨ o = some "") := by
  cases o <;> simp [jsFalsyStrOpt]

/-- C6: when `mergeOne` merges an `extra` record into a primary record,
the primary's photo is kept whenever it is present and non-empty, and the
extra's photo is taken only when the primary's photo is null/undefined
(`none`) or the empty string. -/
theorem claim_C6_photo_merge (base add : ArchimedDoctor) :
    ((base.photo ≠ none ∧ base.photo ≠ some "") → (mergeOne base add).photo = base.photo) ∧
    ((base.photo = none ∨ base.photo = some "") →
      (mergeOne base add).photo =
        (if add.photo = none ∨ add.photo = some "" then base.photo else add.photo)) ∧
    ((mergeOne base add).photo ≠ base.photo →
      (base.photo = none ∨ base.photo = some "") ∧ (mergeOne base add).photo = add.photo) := by
  have hph : (mergeOne base add).photo = mergePhoto base add := rfl
  rw [hph]
  by_cases hbf : jsFalsyStrOpt base.photo = true
  · by_cases haf : jsFalsyStrOpt add.photo = true
    · have hsame : mergePhoto base add = base.photo := by
        simp [mergePhoto, haf]
      refine ⟨?_, ?_, ?_⟩
      · intro _; exact hsame
      · intro _
        rw [if_pos ((jsFalsyStrOpt_iff add.photo).mp haf), hsame]
      · intro hne; exact absurd hsame hne
    · have htake : mergePhoto base add = add.photo := by
        simp [mergePhoto, hbf, haf]
      refine ⟨?_, ?_, ?_⟩
      · intro hb
        exact absurd ((jsFalsyStrOpt_iff base.photo).mp hbf) (by
          rcases hb with ⟨h1, h2⟩; rintro (h | h) <;> [exact h1 h; exact h2 h])
      · intro _
        rw [if_neg (fun h => haf ((jsFalsyStrOpt_iff add.photo).mpr h)), htake]
      · intro _
        exact ⟨(jsFalsyStrOpt_iff base.photo).mp hbf, htake⟩
  · have hkeep : mergePhoto base add = base.photo := by
      simp [mergePhoto, hbf]
    refine ⟨?_, ?_, ?_⟩
    · intro _; exact hkeep
    · intro hb
      exact absurd ((jsFalsyStrOpt_iff base.photo).mpr hb) hbf
    · intro hne; exact absurd hkeep hne

/-- Witness for C6 at concrete records: a present, non-empty primary
photo survives the merge. -/
theorem claim_C6_witness : (mergeOne docW docW2).photo = some "x" :=
  (claim_C6_photo_merge docW docW2).1 (by decide)

/-- C10 counterexample: the claim quantifies over every payload with
non-null `data` and `timestamp`, but a payload whose timestamp is the
non-null number `0` is falsy in JS and is rejected by `readFromStorage`
instead of its data being returned. -/
theorem claim_C10_counterexample :
    readFromStorage (StorageRaw.slot (some (RawJson.arr ([] : List ArchimedDoctor))) (some 0)) 5 10 = none ∧
    (some (RawJson.arr ([] : List ArchimedDoctor)) ≠ (none : Option (RawJson ArchimedDoctor))) ∧
    ((some 0 : Option Int) ≠ none) := by
  refine ⟨rfl, by simp, by simp⟩

/-- C10 (amended): for every stored payload with non-null `data` and a
non-null, non-zero `timestamp`, `readFromStorage` returns the contained
data regardless of whether the timestamp lies inside the `ttlMs` window
(both branches of the freshness test select the same value), and `none`
is returned exactly when the slot is missing, unparsable, or lacks a
truthy `data` or `timestamp`. -/
theorem claim_C10_ttl_never_rejects (now ttlMs : Int) :
    (∀ (dv : RawJson ArchimedDoctor) (ts : Int), ts ≠ 0 →
      readFromStorage (StorageRaw.slot (some dv) (some ts)) now ttlMs = some dv) ∧
    (∀ raw : StorageRaw (RawJson ArchimedDoctor),
      readFromStorage raw now ttlMs = none ↔
        (∀ (d : RawJson ArchimedDoctor) (t : Int), raw = .slot (some d) (some t) → t = 0)) := by
  constructor
  · intro dv ts hts
    simp [readFromStorage, hts]
  · intro raw
    rcases raw with _ | _ | ⟨d, t⟩
    · simp [readFromStorage]
    · simp [readFromStorage]
    · rcases d with _ | dv <;> rcases t with _ | ts <;> simp [readFromStorage]

/-- Witness for C10 (amended): a year-old timestamp is still served. -/
theorem claim_C10_witness :
    readFromStorage (StorageRaw.slot (some (RawJson.arr [docW])) (some 1)) 999999999 doctorsCacheTtlMs
      = some (RawJson.arr [docW]) :=
  (claim_C10_ttl_never_rejects 999999999 doctorsCacheTtlMs).1 (RawJson.arr [docW]) 1 (by decide)

/-- C4: a non-empty in-memory cache is returned unchanged and immediately,
with a background refresh triggered and the state untouched; and the
background `refreshDoctors` leaves both the cache and the storage slot
unchanged when its API fetch fails (here: the first page request errors)
or yields an empty list. -/
theorem claim_C4_stale_while_revalidate (st : SvcState) (env : FetchEnv) (now : Int) :
    (st.cache ≠ [] → getDoctors st env now = ⟨.ok st.cache, st, true⟩) ∧
    ((fetchAllDoctorsFromAPI env.apiPages).2 = [] → refreshDoctors st env now = st) ∧
    (∀ e, env.apiPages 1 = .error e → refreshDoctors st env now = st) := by
  refine ⟨?_, ?_, ?_⟩
  · intro h
    simp [getDoctors, List.length_pos.mpr h]
  · intro h
    simp [refreshDoctors, h]
  · intro e he
    simp [refreshDoctors, fetchAllDoctorsFromAPI, he]

/-- Witness for C4: with a warm cache the call returns it and changes
nothing, and a failing refresh leaves the state alone. -/
theorem claim_C4_witness :
    getDoctors ⟨[docW], .missing⟩ envFailW 0 = ⟨.ok [docW], ⟨[docW], .missing⟩, true⟩ ∧
    refreshDoctors ⟨[docW], .missing⟩ envFailW 0 = ⟨[docW], .missing⟩ := by
  constructor
  · exact (claim_C4_stale_while_revalidate ⟨[docW], .missing⟩ envFailW 0).1 (by decide)
  · exact (claim_C4_stale_while_revalidate ⟨[docW], .missing⟩ envFailW 0).2.2 "network down" rfl

theorem mergeDoctors_eq_phases (primary extra : List ArchimedDoctor) :
    mergeDoctors primary extra = (phase2 (phase1 [] primary) extra).map Prod.snd := rfl

/-- `mergeOne` copies every name/id field from its base record. -/
theorem mergeOne_base_fields (b a : ArchimedDoctor) :
    (mergeOne b a).name = b.name ∧ (mergeOne b a).name1 = b.name1 ∧
    (mergeOne b a).name2 = b.name2 ∧ (mergeOne b a).id = b.id :=
  ⟨rfl, rfl, rfl, rfl⟩

theorem makeNameKey_mergeOne (b a : ArchimedDoctor) :
    makeNameKey (mergeOne b a) = makeNameKey b := rfl

theorem jsMapSet_keys {α : Type} (m : List (String × α)) (k : String) (v : α) :
    (jsMapSet m k v).map Prod.fst =
      if k ∈ m.map Prod.fst then m.map Prod.fst else m.map Prod.fst ++ [k] := by
  induction m with
  | nil => simp [jsMapSet]
  | cons p rest ih =>
    obtain ⟨k', v'⟩ := p
    by_cases h : k' = k
    · subst h
      simp [jsMapSet]
    · have hne : ¬k = k' := fun e => h e.symm
      simp only [jsMapSet, if_neg h, List.map_cons, List.mem_cons, hne, false_or]
      rw [ih]
      by_cases hk : k ∈ rest.map Prod.fst <;> simp [hk]

theorem mem_jsMapSet_keys {α : Type} (m : List (String × α)) (k a : String) (v : α) :
    (a ∈ (jsMapSet m k v).map Prod.fst) ↔ a ∈ m.map Prod.fst ∨ a = k := by
  rw [jsMapSet_keys]
  by_cases hk : k ∈ m.map Prod.fst
  · simp only [if_pos hk]
    constructor
    · exact Or.inl
    · rintro (h | h)
      · exact h
      · exact h ▸ hk
  · simp [if_neg hk]

theorem jsMapSet_keys_nodup {α : Type} (m : List (String × α)) (k : String) (v : α)
    (h : (m.map Prod.fst).Nodup) : ((jsMapSet m k v).map Prod.fst).Nodup := by
  rw [jsMapSet_keys]
  by_cases hk : k ∈ m.map Prod.fst
  · simpa [hk] using h
  · simp [hk, List.nodup_append, h]

theorem mem_of_mem_jsMapSet {α : Type} (m : List (String × α)) (k : String) (v : α)
    (p : String × α) (hp : p ∈ jsMapSet m k v) : p = (k, v) ∨ p ∈ m := by
  induction m with
  | nil => simpa [jsMapSet] using hp
  | cons q rest ih =>
    obtain ⟨k', v'⟩ := q
    by_cases h : k' = k
    · subst h
      simp only [jsMapSet, eq_self_iff_true, if_true, List.mem_cons] at hp
      rcases hp with h | h
      · exact Or.inl h
      · exact Or.inr (List.mem_cons_of_mem _ h)
    · simp only [jsMapSet, if_neg h, List.mem_cons] at hp
      rcases hp with h1 | h1
      · exact Or.inr (List.mem_cons.mpr (Or.inl h1))
      · rcases ih h1 with h2 | h2
        · exact Or.inl h2
        · exact Or.inr (List.mem_cons_of_mem _ h2)

theorem jsMapGet_none_iff {α : Type} (m : List (String × α)) (k : String) :
    jsMapGet m k = none ↔ k ∉ m.map Prod.fst := by
  simp only [jsMapGet, Option.map_eq_none', List.find?_eq_none, beq_iff_eq, List.mem_map]
  constructor
  · rintro h ⟨p, hp, hk⟩
    exact h p hp hk
  · rintro h p hp hk
    exact h ⟨p, hp, hk⟩

theorem jsMapGet_some_mem {α : Type} (m : List (String × α)) (k : String) (v : α)
    (h : jsMapGet m k = some v) : (k, v) ∈ m := by
  simp only [jsMapGet, Option.map_eq_some'] at h
  obtain ⟨p, hfind, hv⟩ := h
  have hmem := List.mem_of_find?_eq_some hfind
  have hk : p.1 = k := by simpa using List.find?_some hfind
  have hp : p = (k, v) := by
    obtain ⟨k', v'⟩ := p
    simp only at hv hk
    rw [hv, hk]
  rwa [hp] at hmem

theorem phase1_nil (m : List (String × ArchimedDoctor)) : phase1 m [] = m := rfl

theorem phase1_cons (m : List (String × ArchimedDoctor)) (d : ArchimedDoctor)
    (l : List ArchimedDoctor) :
    phase1 m (d :: l) = phase1 (jsMapSet m (makeNameKey d) d) l := rfl

theorem phase2_nil (m : List (String × ArchimedDoctor)) : phase2 m [] = m := rfl

theorem phase2_cons (m : List (String × ArchimedDoctor)) (d : ArchimedDoctor)
    (l : List ArchimedDoctor) :
    phase2 m (d :: l) =
      phase2 (match jsMapGet m (makeNameKey d) with
        | some existing => jsMapSet m (makeNameKey d) (mergeOne existing d)
        | none => jsMapSet m (makeNameKey d) d) l := rfl

/-- Invariants of the first `mergeDoctors` loop: keys follow the stored
records, values come from the accumulator or the primary list, the key
set grows exactly by the primary keys, and key-nodup is preserved. -/
theorem phase1_spec (l : List ArchimedDoctor) :
    ∀ m : List (String × ArchimedDoctor),
      (∀ p ∈ m, makeNameKey p.2 = p.1) →
      ((∀ p ∈ phase1 m l, makeNameKey p.2 = p.1) ∧
       (∀ p ∈ phase1 m l, p ∈ m ∨ p.2 ∈ l) ∧
       (∀ a, a ∈ (phase1 m l).map Prod.fst ↔ a ∈ m.map Prod.fst ∨ a ∈ l.map makeNameKey) ∧
       ((m.map Prod.fst).Nodup → ((phase1 m l).map Prod.fst).Nodup)) := by
  induction l with
  | nil =>
    intro m hm
    exact ⟨hm, fun p hp => Or.inl hp, fun a => by simp [phase1_nil], fun h => h⟩
  | cons d l ih =>
    intro m hm
    have hm' : ∀ p ∈ jsMapSet m (makeNameKey d) d, makeNameKey p.2 = p.1 := by
      intro p hp
      rcases mem_of_mem_jsMapSet _ _ _ p hp with h | h
      · rw [h]
      · exact hm p h
    obtain ⟨i1, i2, i3, i4⟩ := ih (jsMapSet m (makeNameKey d) d) hm'
    rw [phase1_cons]
    refine ⟨i1, ?_, ?_, ?_⟩
    · intro p hp
      rcases i2 p hp with h | h
      · rcases mem_of_mem_jsMapSet _ _ _ p h with h1 | h1
        · exact Or.inr (by rw [h1]; exact List.mem_cons_self _ _)
        · exact Or.inl h1
      · exact Or.inr (List.mem_cons_of_mem _ h)
    · intro a
      rw [i3 a, mem_jsMapSet_keys]
      simp only [List.map_cons, List.mem_cons]
      tauto
    · intro hnd
      exact i4 (jsMapSet_keys_nodup _ _ _ hnd)

/-- Invariants of the second `mergeDoctors` loop: key consistency, the
key set grows exactly by the extra keys, key-nodup is preserved, and a
stored record whose key occurs in `primary` keeps the name/id fields of
some primary record (merging only fills other fields in). -/
theorem phase2_spec (primary : List ArchimedDoctor) (l : List ArchimedDoctor) :
    ∀ m : List (String × ArchimedDoctor),
      (∀ p ∈ m, makeNameKey p.2 = p.1) →
      (∀ a ∈ primary.map makeNameKey, a ∈ m.map Prod.fst) →
      (∀ p ∈ m, p.1 ∈ primary.map makeNameKey →
        ∃ q ∈ primary, p.2.name = q.name ∧ p.2.name1 = q.name1 ∧
          p.2.name2 = q.name2 ∧ p.2.id = q.id) →
      ((∀ p ∈ phase2 m l, makeNameKey p.2 = p.1) ∧
       (∀ a, a ∈ (phase2 m l).map Prod.fst ↔ a ∈ m.map Prod.fst ∨ a ∈ l.map makeNameKey) ∧
       ((m.map Prod.fst).Nodup → ((phase2 m l).map Prod.fst).Nodup) ∧
       (∀ p ∈ phase2 m l, p.1 ∈ primary.map makeNameKey →
         ∃ q ∈ primary, p.2.name = q.name ∧ p.2.name1 = q.name1 ∧
           p.2.name2 = q.name2 ∧ p.2.id = q.id)) := by
  induction l with
  | nil =>
    intro m hkey hsub hbase
    exact ⟨hkey, fun a => by simp [phase2_nil], fun h => h, hbase⟩
  | cons d l ih =>
    intro m hkey hsub hbase
    rw [phase2_cons]
    cases hget : jsMapGet m (makeNameKey d) with
    | some existing =>
      simp only [hget]
      have hmem : (makeNameKey d, existing) ∈ m := jsMapGet_some_mem _ _ _ hget
      have hkeyE : makeNameKey existing = makeNameKey d :=
        hkey (makeNameKey d, existing) hmem
      have hkey' : ∀ p ∈ jsMapSet m (makeNameKey d) (mergeOne existing d),
          makeNameKey p.2 = p.1 := by
        intro p hp
        rcases mem_of_mem_jsMapSet _ _ _ p hp with h | h
        · rw [h]
          simpa [makeNameKey_mergeOne] using hkeyE
        · exact hkey p h
      have hsub' : ∀ a ∈ primary.map makeNameKey,
          a ∈ (jsMapSet m (makeNameKey d) (mergeOne existing d)).map Prod.fst := by
        intro a ha
        exact (mem_jsMapSet_keys _ _ _ _).mpr (Or.inl (hsub a ha))
      have hbase' : ∀ p ∈ jsMapSet m (makeNameKey d) (mergeOne existing d),
          p.1 ∈ primary.map makeNameKey →
          ∃ q ∈ primary, p.2.name = q.name ∧ p.2.name1 = q.name1 ∧
            p.2.name2 = q.name2 ∧ p.2.id = q.id := by
        intro p hp hpk
        rcases mem_of_mem_jsMapSet _ _ _ p hp with h | h
        · have hpk' : makeNameKey d ∈ primary.map makeNameKey := by
            have h1 : p.1 = makeNameKey d := by rw [h]
            rwa [h1] at hpk
          obtain ⟨q, hq, h1, h2, h3, h4⟩ := hbase (makeNameKey d, existing) hmem hpk'
          subst h
          exact ⟨q, hq, (mergeOne_base_fields existing d).1.trans h1,
            (mergeOne_base_fields existing d).2.1.trans h2,
            (mergeOne_base_fields existing d).2.2.1.trans h3,
            (mergeOne_base_fields existing d).2.2.2.trans h4⟩
        · exact hbase p h hpk
      obtain ⟨i1, i2, i3, i4⟩ := ih _ hkey' hsub' hbase'
      refine ⟨i1, ?_, ?_, i4⟩
      · intro a
        rw [i2 a, mem_jsMapSet_keys]
        simp only [List.map_cons, List.mem_cons]
        tauto
      · intro hnd
        exact i3 (jsMapSet_keys_nodup _ _ _ hnd)
    | none =>
      simp only [hget]
      have hnotin : makeNameKey d ∉ m.map Prod.fst := (jsMapGet_none_iff _ _).mp hget
      have hkey' : ∀ p ∈ jsMapSet m (makeNameKey d) d, makeNameKey p.2 = p.1 := by
        intro p hp
        rcases mem_of_mem_jsMapSet _ _ _ p hp with h | h
        · rw [h]
        · exact hkey p h
      have hsub' : ∀ a ∈ primary.map makeNameKey,
          a ∈ (jsMapSet m (makeNameKey d) d).map Prod.fst := by
        intro a ha
        exact (mem_jsMapSet_keys _ _ _ _).mpr (Or.inl (hsub a ha))
      have hbase' : ∀ p ∈ jsMapSet m (makeNameKey d) d,
          p.1 ∈ primary.map makeNameKey →
          ∃ q ∈ primary, p.2.name = q.name ∧ p.2.name1 = q.name1 ∧
            p.2.name2 = q.name2 ∧ p.2.id = q.id := by
        intro p hp hpk
        rcases mem_of_mem_jsMapSet _ _ _ p hp with h | h
        · exact absurd (hsub p.1 hpk) (by rw [h]; exact hnotin)
        · exact hbase p h hpk
      obtain ⟨i1, i2, i3, i4⟩ := ih _ hkey' hsub' hbase'
      refine ⟨i1, ?_, ?_, i4⟩
      · intro a
        rw [i2 a, mem_jsMapSet_keys]
        simp only [List.map_cons, List.mem_cons]
        tauto
      · intro hnd
        exact i3 (jsMapSet_keys_nodup _ _ _ hnd)

/-- C2: the list `mergeDoctors` returns has pairwise distinct merge keys,
its key set is exactly the union of the input key sets, and a returned
record whose key occurs in `primary` is based on a primary record — it
keeps that record's `name`, `name1`, `name2` and `id`, the matching extra
record only filling in other fields. -/
theorem claim_C2_merge_dedup (primary extra : List ArchimedDoctor) :
    ((mergeDoctors primary extra).map makeNameKey).Nodup ∧
    (∀ k, k ∈ (mergeDoctors primary extra).map makeNameKey ↔
      k ∈ primary.map makeNameKey ∨ k ∈ extra.map makeNameKey) ∧
    (∀ d ∈ mergeDoctors primary extra, makeNameKey d ∈ primary.map makeNameKey →
      ∃ q ∈ primary, d.name = q.name ∧ d.name1 = q.name1 ∧
        d.name2 = q.name2 ∧ d.id = q.id) := by
  obtain ⟨p1key, p1vals, p1keys, p1nd⟩ := phase1_spec primary [] (by simp)
  have hsub : ∀ a ∈ primary.map makeNameKey, a ∈ (phase1 [] primary).map Prod.fst := by
    intro a ha
    exact (p1keys a).mpr (Or.inr ha)
  have hbase0 : ∀ p ∈ phase1 [] primary, p.1 ∈ primary.map makeNameKey →
      ∃ q ∈ primary, p.2.name = q.name ∧ p.2.name1 = q.name1 ∧
        p.2.name2 = q.name2 ∧ p.2.id = q.id := by
    intro p hp _
    rcases p1vals p hp with h | h
    · exact absurd h (List.not_mem_nil p)
    · exact ⟨p.2, h, rfl, rfl, rfl, rfl⟩
  obtain ⟨p2key, p2keys, p2nd, p2base⟩ :=
    phase2_spec primary extra (phase1 [] primary) p1key hsub hbase0
  have hM : mergeDoctors primary extra = (phase2 (phase1 [] primary) extra).map Prod.snd :=
    mergeDoctors_eq_phases primary extra
  have hmapeq : ((phase2 (phase1 [] primary) extra).map Prod.snd).map makeNameKey
      = (phase2 (phase1 [] primary) extra).map Prod.fst := by
    rw [List.map_map]
    exact List.map_congr_left (fun p hp => p2key p hp)
  refine ⟨?_, ?_, ?_⟩
  · rw [hM, hmapeq]
    exact p2nd (p1nd (by simp))
  · intro k
    rw [hM, hmapeq, p2keys k, p1keys k]
    simp
  · intro d hd hk
    rw [hM] at hd
    obtain ⟨p, hp, hpd⟩ := List.mem_map.mp hd
    have hp1 : p.1 = makeNameKey d := by
      rw [← hpd]
      exact (p2key p hp).symm
    obtain ⟨q, hq, h1, h2, h3, h4⟩ := p2base p hp (by rw [hp1]; exact hk)
    exact ⟨q, hq, by rw [← hpd]; exact h1, by rw [← hpd]; exact h2,
      by rw [← hpd]; exact h3, by rw [← hpd]; exact h4⟩

/-- Witness for C2 at concrete lists: with one primary record and two
extra records (one matching, one new). -/
theorem claim_C2_witness :
    ∃ q ∈ [docW], (mergeOne docW docW2).name = q.name ∧
      (mergeOne docW docW2).name1 = q.name1 ∧ (mergeOne docW docW2).name2 = q.name2 ∧
      (mergeOne docW docW2).id = q.id :=
  (claim_C2_merge_dedup [docW] [docW2, docW3]).2.2 (mergeOne docW docW2)
    (by decide) (by decide)

/-- C7: a doctor appears in a service's `doctors` list from
`getServicesWithDoctors` exactly when the service appears in the doctor's
`services` list from `getDoctorsWithServices`; both directions apply the
same symmetric criterion — the doctor's specialty token set and the
service's name/group-name token set share at least one token. -/
theorem claim_C7_symmetric_matching (ds : List ArchimedDoctor) (ss : List ApiService)
    (d : ArchimedDoctor) (svcs : List ApiService) (s : ApiService)
    (docs : List ArchimedDoctor)
    (hd : (d, svcs) ∈ getDoctorsWithServices ds ss)
    (hs : (s, docs) ∈ getServicesWithDoctors ds ss) :
    (s ∈ svcs ↔ d ∈ docs) ∧
    (s ∈ svcs ↔ ∃ t ∈ doctorTokens d, t ∈ serviceTokens s) := by
  obtain ⟨d0, hd0, hde⟩ := List.mem_map.mp hd
  obtain ⟨s0, hs0, hse⟩ := List.mem_map.mp hs
  have hd1 : d0 = d := congrArg Prod.fst hde
  have hd2 : (ss.filter fun svc =>
      (doctorTokens d0).any fun t => (serviceTokens svc).contains t) = svcs :=
    congrArg Prod.snd hde
  have hs1 : s0 = s := congrArg Prod.fst hse
  have hs2 : (ds.filter fun d1 =>
      (doctorTokens d1).any fun t => (serviceTokens s0).contains t) = docs :=
    congrArg Prod.snd hse
  rw [hd1] at hd0 hd2
  rw [hs1] at hs0 hs2
  have hmem_svcs : s ∈ svcs ↔ (doctorTokens d).any (fun t => (serviceTokens s).contains t) = true := by
    rw [← hd2]
    simp only [List.mem_filter]
    constructor
    · rintro ⟨_, h⟩; exact h
    · intro h; exact ⟨hs0, h⟩
  have hmem_docs : d ∈ docs ↔ (doctorTokens d).any (fun t => (serviceTokens s).contains t) = true := by
    rw [← hs2]
    simp only [List.mem_filter]
    constructor
    · rintro ⟨_, h⟩; exact h
    · intro h; exact ⟨hd0, h⟩
  constructor
  · rw [hmem_svcs, hmem_docs]
  · rw [hmem_svcs]
    simp [List.any_eq_true]

/-- Witness for C7 at a concrete doctor/service pair. -/
theorem claim_C7_witness :
    (svcT ∈ [svcT] ↔ docT ∈ [docT]) ∧
    (svcT ∈ [svcT] ↔ ∃ t ∈ doctorTokens docT, t ∈ serviceTokens svcT) :=
  claim_C7_symmetric_matching [docT] [svcT] docT [svcT] svcT [docT] (by decide) (by decide)

/-- Every outcome of the fetch fallback chain settles with `.ok` of a
blacklist-filtered list, which also becomes the new cache, with the
storage slot rewritten. -/
theorem getDoctorsFetch_shape (env : FetchEnv) (now : Int) :
    ∃ ds, getDoctorsFetch env now =
      ⟨.ok (applyRemovals ds), ⟨applyRemovals ds, storedSlot (applyRemovals ds) now⟩, false⟩ := by
  simp only [getDoctorsFetch, apiDirectPath, catchPath]
  repeat' split
  all_goals exact ⟨_, rfl⟩

/-- Every `getDoctors` call settles with `.ok` of the post-call cache,
which is either the untouched pre-call cache or a blacklist-filtered
list. -/
theorem getDoctors_ret_shape (st : SvcState) (env : FetchEnv) (now : Int) :
    (getDoctors st env now).ret = .ok ((getDoctors st env now).st).cache ∧
    ((getDoctors st env now).st.cache = st.cache ∨
      ∃ ds, (getDoctors st env now).st.cache = applyRemovals ds) := by
  unfold getDoctors
  split
  · exact ⟨rfl, Or.inl rfl⟩
  · split
    · split
      · exact ⟨rfl, Or.inr ⟨_, rfl⟩⟩
      · obtain ⟨ds, hds⟩ := getDoctorsFetch_shape env now
        rw [hds]
        exact ⟨rfl, Or.inr ⟨_, rfl⟩⟩
    · exact ⟨rfl, Or.inr ⟨_, rfl⟩⟩
    · obtain ⟨ds, hds⟩ := getDoctorsFetch_shape env now
      rw [hds]
      exact ⟨rfl, Or.inr ⟨_, rfl⟩⟩
    · obtain ⟨ds, hds⟩ := getDoctorsFetch_shape env now
      rw [hds]
      exact ⟨rfl, Or.inr ⟨_, rfl⟩⟩

/-- C3: with empty in-memory and storage caches, a thrown public-gateway
request and a failing Archimed API request, `getDoctors` resolves with
the bundled `doctors.json` snapshot (ProDoctorov-enriched when the
snapshot is short, blacklist-filtered); when loading that snapshot also
throws it resolves with the bundled mock list (ProDoctorov-enriched when
available); and `getDoctors` never rejects at all. -/
theorem claim_C3_fallback_chain (env : FetchEnv) (now : Int) (e e1 : String)
    (hpub : env.publicResp = .error e) (hapi : env.apiPages 1 = .error e1) :
    (∀ raw, env.doctorsJson = .ok raw →
      (getDoctors ⟨[], .missing⟩ env now).ret =
        .ok (applyRemovals (enrichIfFew (extractArr raw) env))) ∧
    (∀ e2, env.doctorsJson = .error e2 →
      (getDoctors ⟨[], .missing⟩ env now).ret =
        .ok (applyRemovals
          (if 0 < (loadProdoctorovSnapshot env.prodRaw).length then
            mergeDoctors env.mocks (loadProdoctorovSnapshot env.prodRaw)
          else env.mocks))) ∧
    (∀ (st : SvcState) (env' : FetchEnv), ∃ ds, (getDoctors st env' now).ret = .ok ds) := by
  have hchain : getDoctors ⟨[], .missing⟩ env now = getDoctorsFetch env now := rfl
  have hcatch : getDoctorsFetch env now = catchPath env now := by
    unfold getDoctorsFetch
    rw [hpub]
  refine ⟨?_, ?_, ?_⟩
  · intro raw hraw
    rw [hchain, hcatch]
    unfold catchPath
    rw [hraw]
  · intro e2 he2
    rw [hchain, hcatch]
    unfold catchPath
    rw [he2]
  · intro st env'
    exact ⟨(getDoctors st env' now).st.cache, (getDoctors_ret_shape st env' now).1⟩

/-- Witness for C3: the snapshot path settles the promise. -/
theorem claim_C3_witness :
    (getDoctors ⟨[], .missing⟩ envC3 0).ret = Except.ok ([] : List ArchimedDoctor) :=
  (claim_C3_fallback_chain envC3 0 "net" "net" rfl rfl).1 (.arr []) rfl

theorem applyRemovals_clean (l : List ArchimedDoctor) :
    ∀ d ∈ applyRemovals l, isBlacklisted d = false := by
  intro d hd
  have h := List.mem_filter.mp hd
  simpa using h.2

/-- C9: every doctor list `getDoctors` returns — from the constructor's
storage warm-up, local storage, the public gateway, the Archimed API, the
bundled snapshots, or the mock data — excludes every record whose
normalized full name is in the hard-coded blacklist (provided the
in-memory cache satisfies that invariant, which the constructor
establishes and `getDoctors`/`refreshDoctors` preserve); and `getDoctor`
rejects a blacklisted record with the 404 error even when the API
returned it. -/
theorem claim_C9_blacklist (st : SvcState) (env : FetchEnv)
    (raw : StorageRaw (RawJson ArchimedDoctor)) (now : Int)
    (hclean : ∀ d ∈ st.cache, isBlacklisted d = false) :
    (∀ d ∈ (initState raw now).cache, isBlacklisted d = false) ∧
    (∃ ds, (getDoctors st env now).ret = .ok ds ∧ ∀ d ∈ ds, isBlacklisted d = false) ∧
    (∀ d ∈ (getDoctors st env now).st.cache, isBlacklisted d = false) ∧
    (∀ d ∈ (refreshDoctors st env now).cache, isBlacklisted d = false) ∧
    (∀ doc : ArchimedDoctor, isBlacklisted doc = true →
      getDoctor (.ok doc) = .error "Archimed API error: 404 - Not found") := by
  have hnewcache : ∀ d ∈ (getDoctors st env now).st.cache, isBlacklisted d = false := by
    rcases (getDoctors_ret_shape st env now).2 with h | ⟨ds, hds⟩
    · rw [h]; exact hclean
    · rw [hds]; exact applyRemovals_clean ds
  refine ⟨?_, ?_, hnewcache, ?_, ?_⟩
  · unfold initState
    split
    · exact applyRemovals_clean _
    · exact applyRemovals_clean _
    · intro d hd
      exact absurd hd (List.not_mem_nil d)
  · exact ⟨(getDoctors st env now).st.cache, (getDoctors_ret_shape st env now).1, hnewcache⟩
  · simp only [refreshDoctors]
    split
    · exact applyRemovals_clean _
    · exact hclean
  · intro doc hb
    simp only [getDoctor]
    rw [if_pos hb]

/-- Witness for C9: a blacklisted record fetched from the API is turned
into a 404 rejection, and a concrete `getDoctors` run returns a clean
list. -/
theorem claim_C9_witness :
    getDoctor (.ok docB) = .error "Archimed API error: 404 - Not found" :=
  (claim_C9_blacklist ⟨[], .missing⟩ envFailW .missing 0 (by decide)).2.2.2.2 docB (by decide)

/-- The page-2-onward loop requests a prefix of the remaining page list;
every page it passed (all but the last processed one) was full; and a
request error at position `i` resolves the call with the records of the
pages before it. -/
theorem fetchLoop_spec (env : Nat → Except String ApiPage) (limit : Int) :
    ∀ (ps reqs : List Nat) (acc : List ArchimedDoctor),
      ∃ j, j ≤ ps.length ∧
        (fetchLoop env limit ps reqs acc).1 = reqs ++ ps.take j ∧
        (∀ i (hi : i < ps.length), i + 1 < j → pageFull (env (ps.get ⟨i, hi⟩)) limit) ∧
        (∀ i (hi : i < ps.length) (e : String), i < j → env (ps.get ⟨i, hi⟩) = .error e →
          (fetchLoop env limit ps reqs acc).2 =
            acc ++ ((ps.take i).map (fun q => pageDataOf (env q))).flatten) := by
  intro ps
  induction ps with
  | nil =>
    intro reqs acc
    refine ⟨0, Nat.le_refl 0, by simp [fetchLoop], ?_, ?_⟩
    · intro i hi
      exact absurd hi (Nat.not_lt_zero i)
    · intro i hi
      exact absurd hi (Nat.not_lt_zero i)
  | cons p rest ih =>
    intro reqs acc
    cases henv : env p with
    | error e0 =>
      refine ⟨1, by simp, by simp [fetchLoop, henv], ?_, ?_⟩
      · intro i hi hlt
        omega
      · intro i hi e hij henv2
        have hi0 : i = 0 := by omega
        subst hi0
        simp [fetchLoop, henv]
    | ok pg =>
      cases hdata : pg.data with
      | none =>
        refine ⟨1, by simp, by simp [fetchLoop, henv, hdata], ?_, ?_⟩
        · intro i hi hlt
          omega
        · intro i hi e hij henv2
          have hi0 : i = 0 := by omega
          subst hi0
          simp only [List.get] at henv2
          rw [henv] at henv2
          exact absurd henv2 (by simp)
      | some ds =>
        by_cases hpos : 0 < ds.length
        · by_cases hshort : (ds.length : Int) < limit
          · refine ⟨1, by simp, by simp [fetchLoop, henv, hdata, hpos, hshort], ?_, ?_⟩
            · intro i hi hlt
              omega
            · intro i hi e hij henv2
              have hi0 : i = 0 := by omega
              subst hi0
              simp only [List.get] at henv2
              rw [henv] at henv2
              exact absurd henv2 (by simp)
          · have hstep : fetchLoop env limit (p :: rest) reqs acc =
                fetchLoop env limit rest (reqs ++ [p]) (acc ++ ds) := by
              simp [fetchLoop, henv, hdata, hpos, hshort]
            obtain ⟨j, hj, h1, h2, h3⟩ := ih (reqs ++ [p]) (acc ++ ds)
            refine ⟨j + 1, by simpa using Nat.succ_le_succ hj, ?_, ?_, ?_⟩
            · rw [hstep, h1, List.take_succ_cons]
              simp
            · intro i hi hlt
              cases i with
              | zero =>
                exact ⟨pg, ds, henv, hdata, hpos, le_of_not_lt hshort⟩
              | succ i' =>
                have hi' : i' < rest.length := by
                  simpa using hi
                exact h2 i' hi' (by omega)
            · intro i hi e hij henv2
              cases i with
              | zero =>
                simp only [List.get] at henv2
                rw [henv] at henv2
                exact absurd henv2 (by simp)
              | succ i' =>
                have hi' : i' < rest.length := by
                  simpa using hi
                have hrec := h3 i' hi' e (by omega) henv2
                rw [hstep, hrec, List.take_succ_cons]
                simp [pageDataOf, henv, hdata]
        · refine ⟨1, by simp, by simp [fetchLoop, henv, hdata, hpos], ?_, ?_⟩
          · intro i hi hlt
            omega
          · intro i hi e hij henv2
            have hi0 : i = 0 := by omega
            subst hi0
            simp only [List.get] at henv2
            rw [henv] at henv2
            exact absurd henv2 (by simp)

theorem take_range' : ∀ (n j a : Nat), (List.range' a n).take j = List.range' a (min j n)
  | 0, j, a => by simp
  | n + 1, 0, a => by simp
  | n + 1, j + 1, a => by
    have : (List.range' a (n + 1)).take (j + 1) = a :: (List.range' (a + 1) n).take j := rfl
    rw [this, take_range' n j (a + 1)]
    have hm : min (j + 1) (n + 1) = min j n + 1 := by omega
    rw [hm]
    rfl

theorem fetchAll_eq_loop (env : Nat → Except String ApiPage) (first : ApiPage)
    (henv : env 1 = .ok first) :
    ∃ L : Nat, L ≤ 49 ∧ fetchAllDoctorsFromAPI env =
      fetchLoop env (first.limit.getD 200) (List.range' 2 L) [1] (first.data.getD []) := by
  unfold fetchAllDoctorsFromAPI
  rw [henv]
  refine ⟨_, ?_, rfl⟩
  have h1 : min (if 0 < first.limit.getD 200 then
      ceilDivInt (if (first.total.getD (match first.data with
        | some ds => (ds.length : Int)
        | none => 0)) ≠ 0 then first.total.getD (match first.data with
        | some ds => (ds.length : Int)
        | none => 0) else ((first.data.getD []).length : Int)) (first.limit.getD 200)
      else 1) 50 ≤ (50 : Int) := min_le_right _ _
  omega

/-- C5 (amended): `fetchAllDoctorsFromAPI` requests pages sequentially
starting at page 1 and requests at most `MAX_API_PAGES` (50) pages in
total; *from the second page on* it stops as soon as a page is empty or
shorter than the limit (every loop page that was not the last request was
full); when the first request errors it resolves with `[]`; and when a
later request errors it resolves with the records accumulated from the
pages before it instead of rejecting.  (The page-1 response never stops
the loop by being empty or short: the loop bound comes from the first
response's `total`/`limit`.) -/
theorem claim_C5_pagination (env : Nat → Except String ApiPage) :
    (∃ k, 1 ≤ k ∧ k ≤ 50 ∧ (fetchAllDoctorsFromAPI env).1 = List.range' 1 k ∧
      (∀ p, 2 ≤ p → p + 1 ≤ k → pageFull (env p) (firstLimit env))) ∧
    (∀ e, env 1 = .error e → fetchAllDoctorsFromAPI env = ([1], [])) ∧
    (∀ p e, 2 ≤ p → p ∈ (fetchAllDoctorsFromAPI env).1 → env p = .error e →
      (fetchAllDoctorsFromAPI env).2 = accUpTo env (p - 1)) := by
  cases henv : env 1 with
  | error e0 =>
    have hfa : fetchAllDoctorsFromAPI env = ([1], []) := by
      unfold fetchAllDoctorsFromAPI
      rw [henv]
    refine ⟨⟨1, Nat.le_refl 1, by omega, by rw [hfa]; rfl, ?_⟩, fun e _ => hfa, ?_⟩
    · intro p hp hpk
      omega
    · intro p e hp hmem henvp
      rw [hfa] at hmem
      have hmem1 : p ∈ [1] := hmem
      simp at hmem1
      omega
  | ok first =>
    obtain ⟨L, hL49, hfa⟩ := fetchAll_eq_loop env first henv
    obtain ⟨j, hj, h1, h2, h3⟩ :=
      fetchLoop_spec env (first.limit.getD 200) (List.range' 2 L) [1] (first.data.getD [])
    rw [List.length_range'] at hj
    have htake : (List.range' 2 L).take j = List.range' 2 j := by
      rw [take_range']
      congr 1
      omega
    have hreqs : (fetchAllDoctorsFromAPI env).1 = List.range' 1 (j + 1) := by
      rw [hfa, h1, htake]
      rfl
    have hlimit : firstLimit env = first.limit.getD 200 := by
      unfold firstLimit
      rw [henv]
    have hget : ∀ (i : Nat) (hi : i < (List.range' 2 L).length),
        (List.range' 2 L).get ⟨i, hi⟩ = 2 + i := by
      intro i hi
      simp [List.get_eq_getElem, List.getElem_range']
    refine ⟨⟨j + 1, by omega, by omega, hreqs, ?_⟩, ?_, ?_⟩
    · intro p hp hpk
      have hiL : p - 2 < L := by omega
      have hiL' : p - 2 < (List.range' 2 L).length := by
        rw [List.length_range']
        exact hiL
      have hfull := h2 (p - 2) hiL' (by omega)
      rw [hget (p - 2) hiL'] at hfull
      have hp2 : 2 + (p - 2) = p := by omega
      rw [hp2] at hfull
      rw [hlimit]
      exact hfull
    · intro e he
      simp [henv] at he
    · intro p e hp hmem henvp
      rw [hreqs] at hmem
      have hpj : 2 ≤ p ∧ p < 1 + (j + 1) := by
        have := List.mem_range'_1.mp hmem
        omega
      have hiL : p - 2 < L := by omega
      have hiL' : p - 2 < (List.range' 2 L).length := by
        rw [List.length_range']
        exact hiL
      have hij : p - 2 < j := by omega
      have henvp' : env ((List.range' 2 L).get ⟨p - 2, hiL'⟩) = .error e := by
        rw [hget (p - 2) hiL']
        have hp2 : 2 + (p - 2) = p := by omega
        rw [hp2]
        exact henvp
      have hres := h3 (p - 2) hiL' e hij henvp'
      have hfa2 : (fetchAllDoctorsFromAPI env).2 =
          (fetchLoop env (first.limit.getD 200) (List.range' 2 L) [1] (first.data.getD [])).2 := by
        rw [hfa]
      rw [hfa2, hres]
      unfold accUpTo
      have hp1 : p - 1 = (p - 2) + 1 := by omega
      rw [hp1, take_range']
      have hmin : min (p - 2) L = p - 2 := by omega
      rw [hmin]
      have hr : List.range' 1 ((p - 2) + 1) = 1 :: List.range' 2 (p - 2) := rfl
      rw [hr]
      simp [pageDataOf, henv]

/-- C5 counterexample: the claim says the function "stops as soon as a
page is empty", but after an *empty first page* whose `total` field
announces more records the loop still requests page 2 — the stopping rule
only governs pages 2 and on. -/
theorem claim_C5_counterexample :
    (fetchAllDoctorsFromAPI envC5).1 = [1, 2] ∧
    envC5 1 = .ok ⟨some [], some 400, some 200⟩ ∧
    pageDataOf (envC5 1) = [] := by
  refine ⟨by decide, rfl, rfl⟩

/-- Witness for C5 (amended): an error at page 2 resolves the call with
the page-1 records. -/
theorem claim_C5_witness :
    (fetchAllDoctorsFromAPI envW5).2 = accUpTo envW5 1 :=
  (claim_C5_pagination envW5).2.2 2 "boom" (by decide) (by decide) rfl

theorem updateAt_length {α : Type} :
    ∀ (l : List α) (n : Nat) (f : α → α), (updateAt l n f).length = l.length
  | [], _, _ => rfl
  | _ :: xs, 0, _ => by simp [updateAt]
  | x :: xs, n + 1, f => by simp [updateAt, updateAt_length xs n f]

theorem updateAt_get? {α : Type} :
    ∀ (l : List α) (n idx : Nat) (f : α → α),
      (updateAt l n f).get? idx = if idx = n then (l.get? idx).map f else l.get? idx
  | [], n, idx, f => by simp [updateAt]
  | x :: xs, 0, 0, f => by simp [updateAt]
  | x :: xs, 0, idx + 1, f => by simp [updateAt]
  | x :: xs, n + 1, 0, f => by simp [updateAt]
  | x :: xs, n + 1, idx + 1, f => by
    simp only [updateAt, List.get?_cons_succ, updateAt_get? xs n idx f]
    by_cases h : idx = n
    · simp [h]
    · simp [h, fun hc => h (Nat.succ_injective hc)]

/-- The photo produced by the scraper's update branch: the file path when
the entry had no usable photo, the old photo otherwise. -/
theorem scrapeUpdateEntry_photo (pp sp : String) (item : ScrapedEntry) :
    (scrapeUpdateEntry pp sp item).photo =
      if hasNoPhoto item then some pp else item.photo := by
  unfold scrapeUpdateEntry
  by_cases h : hasNoPhoto item <;> simp [h] <;> split <;> rfl

/-- C8: one scraper-loop step never touches the photo of an entry whose
photo is set and is not the no-avatar placeholder; it overwrites a photo
(with the file's `/img_doctors/` path) only when the photo was absent,
empty or the placeholder; and it appends a new entry only when the
normalized parsed name is not already a key of the snapshot. -/
theorem claim_C8_scraper_frame (st : ScrapeState) (fn : String) :
    (∀ (idx : Nat) (e e' : ScrapedEntry),
      st.results.get? idx = some e → (scrapeStep st fn).results.get? idx = some e' →
      ((hasNoPhoto e = false → e'.photo = e.photo) ∧
       (e'.photo ≠ e.photo →
         hasNoPhoto e = true ∧ e'.photo = some ("/img_doctors/" ++ fn)))) ∧
    ((scrapeStep st fn).results.length ≠ st.results.length →
      jsMapGet st.byName (normalizeNameScraper (splitNameAndSpecialty fn).1) = none) := by
  unfold scrapeStep
  by_cases hempty : (splitNameAndSpecialty fn).1 = ""
  · rw [if_pos hempty]
    refine ⟨?_, fun h => absurd rfl h⟩
    intro idx e e' he he'
    rw [he] at he'
    obtain rfl : e = e' := Option.some.inj he'
    exact ⟨fun _ => rfl, fun h => absurd rfl h⟩
  · rw [if_neg hempty]
    cases hget : jsMapGet st.byName (normalizeNameScraper (splitNameAndSpecialty fn).1) with
    | none =>
      simp only [hget]
      refine ⟨?_, fun _ => trivial⟩
      intro idx e e' he he'
      have hidx : idx < st.results.length := (List.get?_eq_some.mp he).1
      rw [List.get?_append hidx, he] at he'
      obtain rfl : e = e' := Option.some.inj he'
      exact ⟨fun _ => rfl, fun h => absurd rfl h⟩
    | some i =>
      simp only [hget]
      constructor
      · intro idx e e' he he'
        rw [updateAt_get?] at he'
        by_cases hidx : idx = i
        · rw [if_pos hidx, he] at he'
          obtain rfl : scrapeUpdateEntry ("/img_doctors/" ++ fn) (splitNameAndSpecialty fn).2 e = e' :=
            Option.some.inj he'
          rw [scrapeUpdateEntry_photo]
          by_cases hph : hasNoPhoto e
          · rw [if_pos hph]
            exact ⟨fun hf => absurd (hf.symm.trans hph) Bool.false_ne_true,
              fun _ => ⟨hph, rfl⟩⟩
          · rw [if_neg hph]
            exact ⟨fun _ => rfl, fun h => absurd rfl h⟩
        · rw [if_neg hidx, he] at he'
          obtain rfl : e = e' := Option.some.inj he'
          exact ⟨fun _ => rfl, fun h => absurd rfl h⟩
      · intro hlen
        exact absurd (updateAt_length st.results i _) hlen

/-- Witness for C8: processing a file for an already-known name with a
real photo leaves the photo unchanged. -/
theorem claim_C8_witness :
    ∃ e', (scrapeStep stW8 "Abc Def - spec.jpg").results.get? 0 = some e' ∧
      e'.photo = entW8.photo := by
  have h2 : (scrapeStep stW8 "Abc Def - spec.jpg").results.get? 0 = some entW8 := by decide
  exact ⟨entW8, h2,
    ((claim_C8_scraper_frame stW8 "Abc Def - spec.jpg").1 0 entW8 entW8 (by decide) h2).1
      (by decide)⟩
